import Mathlib

/-!
Verification development for the gotch neural-network layer
(packages `tensor` (module.go), `nn` (init.go), `wrapper` (tensor.go)).

The foreign (libtorch) runtime is opaque: its numeric kernels are modelled
by oracle functions, and the foreign-resource lifecycle is modelled by an
explicit runtime state carrying the set of live handle ids, a fresh-id
counter, and the process-wide gradient-tracking flag.  Host `float64`
arithmetic is modelled over `ℚ`, except that the final division of the
accuracy evaluators is modelled IEEE-style (`0/0 = NaN`), which is the one
place where the source can hit a float division by zero.
-/

namespace GotchSpec

/-! ## Runtime state: live foreign handles and the grad-mode flag -/

/-- The observable state of the foreign runtime from the host's point of
view: the set of live (allocated, not yet released) handle ids, a counter
supplying fresh ids, and the process-wide gradient-tracking mode. -/
structure RtState where
  live : Finset ℕ
  next : ℕ
  gradMode : Bool
deriving DecidableEq

/-- Allocation of a fresh foreign handle (any tensor-producing foreign
call): returns the new handle id and marks it live. -/
def allocH (s : RtState) : ℕ × RtState :=
  (s.next, { s with live := insert s.next s.live, next := s.next + 1 })

/-- Release of a foreign handle (`MustDrop`, or the `del = true` flag of a
`Must*` tensor method): removes the id from the live set. -/
def dropH (h : ℕ) (s : RtState) : RtState :=
  { s with live := s.live.erase h }

/-- A host-side tensor: a foreign handle id plus the (abstract) value held
by the foreign resource. -/
structure HTensor (α : Type) where
  hid : ℕ
  val : α

/-- The result of the evaluators' final `float64` division. -/
inductive EvalResult where
  | nan : EvalResult
  | inf : Bool → EvalResult
  | val : ℚ → EvalResult
deriving DecidableEq

/-- IEEE-style division of the finite nonneg accumulators of the
evaluators: `0.0/0.0` is NaN, `a/0.0` with `a ≠ 0` is a signed infinity,
otherwise the exact quotient. -/
def fdiv (a b : ℚ) : EvalResult :=
  if b = 0 then (if a = 0 then EvalResult.nan else EvalResult.inf (decide (a < 0)))
  else EvalResult.val (a / b)

/-! ## nn/init.go -/

/-- Modelled from the spec: `ts.FlattenDim` (tensor package, not under
`src/`) is the element count `product(shape)` of a shape. -/
def flattenDim (dims : List ℕ) : ℕ := dims.prod

/-- Go `factorial` (nn/init.go lines 160-166) over `uint64`:
`if n > 0 { return n * factorial(n-1) }; return 1`.  Go unsigned
multiplication wraps, so every product is reduced mod `2^64`; the values
diverge from the mathematical factorial from `n = 21` on
(`21! > 2^64`).  The argument is `uint64(len(dims) - 1)`, in range for
every rank `≥ 1` (rank 0 would wrap the argument itself and is excluded
by the claims). -/
def goFactorial : ℕ → ℕ
  | 0 => 1
  | n + 1 => ((n + 1) * goFactorial n) % 2 ^ 64

/-- Source `randnInit.InitTensor` (nn/init.go line 79): fills a buffer of
`FlattenDim(dims)` elements with `data[i] = z i * mean + stdev`, where
`z` is the stream of standard-normal samples drawn by `rd.NormFloat64()`. -/
def randnInitTensor (mean stdev : ℚ) (dims : List ℕ) (z : ℕ → ℚ) : List ℚ :=
  (List.range (flattenDim dims)).map (fun i => z i * mean + stdev)

/-- Source `randnInit.Set` (nn/init.go line 104): reads the tensor's dims and
fills the same formula `data[i] = z i * mean + stdev`, then copies the
buffer into the tensor; the resulting element values are this list. -/
def randnSetValues (mean stdev : ℚ) (dims : List ℕ) (z : ℕ → ℚ) : List ℚ :=
  (List.range (flattenDim dims)).map (fun i => z i * mean + stdev)

/-- The claim's (spec §4.2) formula for the Normal initializer:
`sample = mean + stdev * z`.  Stated from the spec's words, for comparison
against the source definitions above. -/
def normalSpecValues (mean stdev : ℚ) (dims : List ℕ) (z : ℕ → ℚ) : List ℚ :=
  (List.range (flattenDim dims)).map (fun i => mean + stdev * z i)

/-- Modelled from the spec: the foreign in-place uniform sampler
`Uniform_(lo, up)` (tensor package, not under `src/`) fills every element
with a sample in `[lo, up)`; the raw sample stream `u` lies in `[0, 1)`
and is scaled affinely onto the interval. -/
def uniformFill (lo hi : ℝ) (n : ℕ) (u : ℕ → ℝ) : List ℝ :=
  (List.range n).map (fun i => lo + (hi - lo) * u i)

/-- Source `kaimingUniformInit.InitTensor` (nn/init.go lines 150-158):
`fanIn := factorial(len(dims)-1)`, `bound := sqrt(1/fanIn)`, allocate a
zero tensor and fill it in place with `Uniform_(-bound, bound)`. -/
noncomputable def kaimingUniformInitTensor (dims : List ℕ) (u : ℕ → ℝ) : List ℝ :=
  let fanIn := goFactorial (dims.length - 1)
  let bound := Real.sqrt (1 / (fanIn : ℝ))
  uniformFill (-bound) bound (flattenDim dims) u

/-! ## tensor/module.go: ApplyOpt / ApplyOptT -/

/-- A host tensor for the aliasing model of `ApplyOpt`: a host handle id
plus the id of the foreign resource it references.  A materializing copy
gets a fresh resource id; a shallow clone shares the resource id. -/
structure ATensor where
  hid : ℕ
  res : ℕ
deriving DecidableEq

/-- Modelled from the spec (§4.1): `MustShallowClone` (tensor package, not
under `src/`) "produces an aliasing Handle": a fresh host handle that
references the same foreign resource, without transferring ownership. -/
def mustShallowClone (t : ATensor) (fresh : ℕ) : ATensor :=
  { hid := fresh, res := t.res }

/-- Two handles alias when they reference the same foreign resource. -/
def aliases (a b : ATensor) : Prop := a.res = b.res

/-- Source `Tensor.ApplyOpt` (tensor/module.go lines 171-180): if at least one
`ModuleOption` is given, run `opts[0]()` and forward through it; otherwise
return `ts.MustShallowClone()`. -/
def applyOpt (opts : List (Unit → (ATensor → ATensor))) (ts : ATensor) (fresh : ℕ) : ATensor :=
  match opts with
  | o :: _ => (o ()) ts
  | [] => mustShallowClone ts fresh

/-- Source `Tensor.ApplyOptT` (tensor/module.go lines 192-201): same shape as
`ApplyOpt` but the module is mode-aware (`ForwardT` with the given
`train` flag). -/
def applyOptT (train : Bool) (opts : List (Unit → (ATensor → Bool → ATensor)))
    (ts : ATensor) (fresh : ℕ) : ATensor :=
  match opts with
  | o :: _ => (o ()) ts train
  | [] => mustShallowClone ts fresh

/-! ## tensor/module.go: BatchAccuracyForLogits (Iter2 path)

The foreign kernels reached from the evaluator are oracles collected in
`Foreign`; tensor values are an abstract type `α`. -/

/-- Oracles for the foreign calls made by `BatchAccuracyForLogits`:
`size` is `MustSize()[0]` (leading dimension), `toDev` the value after
`MustTo(d, _)`, `fwdT` the module's `ForwardT`, `accOf` the value of the
`AccuracyForLogits` scalar tensor, `values0` the host read-back
`Values()[0]`. -/
structure Foreign (α : Type) where
  size : α → ℕ
  toDev : α → α
  fwdT : α → Bool → α
  accOf : α → α → α
  values0 : α → ℚ

/-- Source `iter2.Next()` materializes one `(data, label)` batch item: two fresh
foreign handles holding the item's values (Iter2 lives in the tensor
package outside `src/`; per spec §4.4 each produced BatchItem is a fresh
pair of Handles owned by the caller). -/
def iterNextItem {α : Type} (v : α × α) (s : RtState) : (HTensor α × HTensor α) × RtState :=
  let a1 := allocH s
  let a2 := allocH a1.2
  ((⟨a1.1, v.1⟩, ⟨a2.1, v.2⟩), a2.2)

/-- Modelled from the spec: `MustTo(d, true)` (tensor package, not under
`src/`) moves a tensor to the device — a fresh foreign allocation — and,
because the `del` flag is `true`, releases its receiver ("inputs moved to
target device" are transients, spec §4.5). -/
def mustToDel {α : Type} (F : Foreign α) (t : HTensor α) (s : RtState) : HTensor α × RtState :=
  let a := allocH s
  (⟨a.1, F.toDev t.val⟩, dropH t.hid a.2)

/-- The module's `ForwardT`: allocates a fresh logits handle; the input is
not consumed (the source drops `bImages` itself afterwards). -/
def forwardTH {α : Type} (F : Foreign α) (t : HTensor α) (train : Bool) (s : RtState) :
    HTensor α × RtState :=
  let a := allocH s
  (⟨a.1, F.fwdT t.val train⟩, a.2)

/-- Modelled from the spec: `AccuracyForLogits` (tensor package, not under
`src/`) is "the foreign runtime's logits-accuracy primitive"; it allocates
the scalar accuracy handle and consumes (releases) its logits receiver —
spec §4.5 lists the logits among the transients released before the next
iteration, and the source itself never drops `logits` (the drop is
commented out in `BatchAccuracyForLogitsIdx`). The labels argument is not
consumed (the source drops it explicitly). -/
def accuracyForLogitsH {α : Type} (F : Foreign α) (logits labels : HTensor α) (s : RtState) :
    HTensor α × RtState :=
  let a := allocH s
  (⟨a.1, F.accOf logits.val labels.val⟩, dropH logits.hid a.2)

/-- One iteration of the `BatchAccuracyForLogits` loop (tensor/module.go
lines 71-88), threading the running sums `(sumAccuracy, sampleCount)` and
the runtime state: pull the item, read its leading-dimension size, move
both tensors to the device (consuming the originals), run the eval-mode
forward pass, compute the accuracy scalar, accumulate `acc * size` and
`size`, and drop `bImages`, `bLabels` and `acc`. -/
def stepLogits {α : Type} (F : Foreign α) (p : (ℚ × ℚ) × RtState) (v : α × α) :
    (ℚ × ℚ) × RtState :=
  let r0 := iterNextItem v p.2
  let item := r0.1
  let size : ℚ := (F.size item.1.val : ℚ)
  let r1 := mustToDel F item.1 r0.2
  let bImages := r1.1
  let r2 := mustToDel F item.2 r1.2
  let bLabels := r2.1
  let r3 := forwardTH F bImages false r2.2
  let logits := r3.1
  let r4 := accuracyForLogitsH F logits bLabels r3.2
  let acc := r4.1
  let sums := (p.1.1 + F.values0 acc.val * size, p.1.2 + size)
  let s5 := dropH bImages.hid r4.2
  let s6 := dropH bLabels.hid s5
  let s7 := dropH acc.hid s6
  (sums, s7)

/-- Source `BatchAccuracyForLogits` (tensor/module.go lines 59-91), with the
batch items produced by `MustNewIter2` given as the list of their values:
open the no-grad guard (save the mode, switch it off), fold the loop body
over the items, restore the saved mode on return (`defer noGradGuard.Drop()`,
NoGradGuard modelled from the spec: saves and restores the process-wide
mode), and return `sumAccuracy / sampleCount`. -/
def batchAccuracyForLogitsRun {α : Type} (F : Foreign α) (items : List (α × α)) (s : RtState) :
    EvalResult × RtState :=
  let saved := s.gradMode
  let s0 : RtState := { s with gradMode := false }
  let r := items.foldl (stepLogits F) ((0, 0), s0)
  let s1 : RtState := { r.2 with gradMode := saved }
  (fdiv r.1.1 r.1.2, s1)

/-- The per-batch accuracy value of the Iter2 path, as a pure function of
the item's values: forward the device-moved data in eval mode, compare
with the device-moved labels, read back the scalar. -/
def logitsAccVal {α : Type} (F : Foreign α) (v : α × α) : ℚ :=
  F.values0 (F.accOf (F.fwdT (F.toDev v.1) false) (F.toDev v.2))

/-- The running sums the claim describes for the Iter2 path: every batch
adds its accuracy value weighted by its own leading-dimension size to
`sumAccuracy` and that size to `sampleCount`. -/
def logitsSums {α : Type} (F : Foreign α) (items : List (α × α)) : ℚ × ℚ :=
  items.foldl
    (fun a v => (a.1 + logitsAccVal F v * (F.size v.1 : ℚ), a.2 + (F.size v.1 : ℚ))) (0, 0)

/-! ## tensor/module.go: BatchAccuracyForLogitsIdx (index path)

Here the data/label tensor values are lists of rows, so that the index
operations (`MustIndexSelect`, `Idx(NewNarrow(..))`) have their concrete
row-level meaning; logits (`α`) and accuracy (`β`) values stay abstract. -/

/-- Modelled from the spec: `MustIndexSelect(0, index, false)` (tensor
package, not under `src/`) gathers rows along dimension 0: row `k` of the
result is row `idx[k]` of the input (spec §4.4: "pre-shuffle both handles
with one shared random permutation"). -/
def indexSelect0 {γ : Type} [Inhabited γ] (rows : List γ) (idx : List ℕ) : List γ :=
  idx.map (fun i => rows.getD i default)

/-- Modelled from the spec: `Idx(NewNarrow(start, stop))` (tensor package,
not under `src/`) slices the contiguous row range `[start, stop)` along
the leading dimension (spec §4.4: "slicing contiguous ranges
`[i*B, i*B+B)`"). -/
def narrow0 {γ : Type} (rows : List γ) (start stop : ℕ) : List γ :=
  (rows.drop start).take (stop - start)

/-- The rows of one produced batch of the index path: the shared
permutation applied to the source rows, then the contiguous slice
`[start, start+size)`. -/
def idxBatchData {γ : Type} [Inhabited γ] (rows : List γ) (p : List ℕ) (start size : ℕ) :
    List γ :=
  narrow0 (indexSelect0 rows p) start (start + size)

/-- Oracles for the foreign calls made by `BatchAccuracyForLogitsIdx`:
device moves for data and label rows, the module's `ForwardT` (producing
an abstract logits value `α`), the accuracy primitive (producing an
abstract scalar-tensor value `β`), the host read-back `Values()[0]`, and
the `MustRandperm` output for a given length. -/
structure ForeignIdx (ρ σ α β : Type) where
  toDevD : List ρ → List ρ
  toDevL : List σ → List σ
  fwdT : List ρ → Bool → α
  accOf : α → List σ → β
  values0 : β → ℚ
  randperm : ℕ → List ℕ

/-- One iteration of the `BatchAccuracyForLogitsIdx` loop body after the
break check (tensor/module.go lines 124-144): slice both permuted tensors
(`Idx` allocates the slices), move both to the device (consuming the
slices), run the forward pass with `train = true`, compute the accuracy
scalar (consuming the logits), accumulate `accuVal * bSamples` and
`bSamples` where `bSamples = float64(xs.MustSize()[0])` is the full
leading dimension `N` of `xs`, and drop `bImages`, `bLabels`,
`bAccuracy`. -/
def idxStep {ρ σ α β : Type} [Inhabited ρ] [Inhabited σ] (F : ForeignIdx ρ σ α β) (N : ℕ)
    (imagesVal : List ρ) (labelsVal : List σ) (B start : ℕ)
    (p : (ℚ × ℚ) × RtState) : (ℚ × ℚ) × RtState :=
  let a1 := allocH p.2
  let bImages0 : HTensor (List ρ) := ⟨a1.1, narrow0 imagesVal start (start + B)⟩
  let a2 := allocH a1.2
  let bLabels0 : HTensor (List σ) := ⟨a2.1, narrow0 labelsVal start (start + B)⟩
  let a3 := allocH a2.2
  let s3 := dropH bImages0.hid a3.2
  let bImages : HTensor (List ρ) := ⟨a3.1, F.toDevD bImages0.val⟩
  let a4 := allocH s3
  let s4 := dropH bLabels0.hid a4.2
  let bLabels : HTensor (List σ) := ⟨a4.1, F.toDevL bLabels0.val⟩
  let a5 := allocH s4
  let logits : HTensor α := ⟨a5.1, F.fwdT bImages.val true⟩
  let a6 := allocH a5.2
  let s6 := dropH logits.hid a6.2
  let bAccuracy : HTensor β := ⟨a6.1, F.accOf logits.val bLabels.val⟩
  let accuVal := F.values0 bAccuracy.val
  let bSamples : ℚ := (N : ℚ)
  let sums := (p.1.1 + accuVal * bSamples, p.1.2 + bSamples)
  let s7 := dropH bImages.hid s6
  let s8 := dropH bLabels.hid s7
  let s9 := dropH bAccuracy.hid s8
  (sums, s9)

/-- The `for i := 0; i < batches; i++` loop of `BatchAccuracyForLogitsIdx`
(tensor/module.go lines 115-145), recursing on the remaining iteration
count, threading `batchIndex` (incremented only when the break check
passes): `start := batchIndex * batchSize`; if fewer than `batchSize`
rows remain the loop breaks, else it runs the body and continues. -/
def idxLoopGo {ρ σ α β : Type} [Inhabited ρ] [Inhabited σ] (F : ForeignIdx ρ σ α β)
    (samples B N : ℕ) (imagesVal : List ρ) (labelsVal : List σ) :
    ℕ → ℕ → ((ℚ × ℚ) × RtState) → ((ℚ × ℚ) × RtState)
  | 0, _, acc => acc
  | n + 1, batchIndex, acc =>
    let start := batchIndex * B
    if samples - start < B then acc
    else idxLoopGo F samples B N imagesVal labelsVal n (batchIndex + 1)
      (idxStep F N imagesVal labelsVal B start acc)

/-- The control skeleton of the same loop: the list of `start` offsets of
the batches it actually processes (each of size `batchSize`). -/
def idxRangesGo (samples B : ℕ) : ℕ → ℕ → List ℕ
  | 0, _ => []
  | n + 1, batchIndex =>
    let start := batchIndex * B
    if samples - start < B then []
    else start :: idxRangesGo samples B n (batchIndex + 1)

/-- The start offsets of the batches produced by the index path's
drop-partial policy over `samples` rows with batch size `B`:
`batches := samples / B` loop iterations from `batchIndex = 0`. -/
def idxBatchStarts (samples B : ℕ) : List ℕ :=
  idxRangesGo samples B (samples / B) 0

/-- Source `BatchAccuracyForLogitsIdx` up to (and including) the accumulation
loop and the post-loop drops, returning the running sums
`(sumAccuracy, sampleCount)` together with the runtime state
(tensor/module.go lines 96-148): switch grad off (`_ = NewNoGradGuard()`,
never dropped), draw one permutation (`MustRandperm` allocates a handle
that is never dropped), build the permuted `imagesTs`/`labelsTs`, run
`samples / batchSize` loop iterations, then drop `imagesTs` and
`labelsTs`. -/
def batchAccuracyForLogitsIdxSums {ρ σ α β : Type} [Inhabited ρ] [Inhabited σ]
    (F : ForeignIdx ρ σ α β) (xs : HTensor (List ρ)) (ys : HTensor (List σ)) (B : ℕ)
    (s : RtState) : (ℚ × ℚ) × RtState :=
  let s0 : RtState := { s with gradMode := false }
  let totalSize := xs.val.length
  let samples := totalSize
  let aIdx := allocH s0
  let p := F.randperm totalSize
  let aImg := allocH aIdx.2
  let imagesTs : HTensor (List ρ) := ⟨aImg.1, indexSelect0 xs.val p⟩
  let aLbl := allocH aImg.2
  let labelsTs : HTensor (List σ) := ⟨aLbl.1, indexSelect0 ys.val p⟩
  let batches := samples / B
  let r := idxLoopGo F samples B totalSize imagesTs.val labelsTs.val batches 0 ((0, 0), aLbl.2)
  let s1 := dropH imagesTs.hid r.2
  let s2 := dropH labelsTs.hid s1
  (r.1, s2)

/-- Source `BatchAccuracyForLogitsIdx` (tensor/module.go lines 96-154): the sums
computation followed by `return sumAccuracy / sampleCount`.  Note: the
grad mode is never restored (`NewNoGradGuard` has no matching `Drop`, and
the re-enable line is commented out). -/
def batchAccuracyForLogitsIdxRun {ρ σ α β : Type} [Inhabited ρ] [Inhabited σ]
    (F : ForeignIdx ρ σ α β) (xs : HTensor (List ρ)) (ys : HTensor (List σ)) (B : ℕ)
    (s : RtState) : EvalResult × RtState :=
  let r := batchAccuracyForLogitsIdxSums F xs ys B s
  (fdiv r.1.1 r.1.2, r.2)

/-- The per-batch accuracy value of the index path as a pure function of
the permuted row lists and the batch start: forward the device-moved
slice in train mode, compare with the device-moved label slice, read back
the scalar. -/
def idxAccVal {ρ σ α β : Type} [Inhabited ρ] [Inhabited σ] (F : ForeignIdx ρ σ α β)
    (imagesVal : List ρ) (labelsVal : List σ) (B start : ℕ) : ℚ :=
  F.values0 (F.accOf (F.fwdT (F.toDevD (narrow0 imagesVal start (start + B))) true)
    (F.toDevL (narrow0 labelsVal start (start + B))))

/-- The running sums the index path actually maintains: every processed
batch adds its accuracy value weighted by the full leading dimension `N`
of `xs` to `sumAccuracy`, and adds that same `N` to `sampleCount`. -/
def idxSums {ρ σ α β : Type} [Inhabited ρ] [Inhabited σ] (F : ForeignIdx ρ σ α β)
    (imagesVal : List ρ) (labelsVal : List σ) (N B : ℕ) (starts : List ℕ) : ℚ × ℚ :=
  starts.foldl
    (fun a st =>
      (a.1 + idxAccVal F imagesVal labelsVal B st * (N : ℚ), a.2 + (N : ℚ))) (0, 0)

/-- The running sums the claim asserts for the index path: every batch's
accuracy weighted by that batch's own sample count — the leading-dimension
size of the batch's data slice — with that same count added to
`sampleCount`.  Stated from the spec's words, for comparison against
`idxSums`/`batchAccuracyForLogitsIdxSums`. -/
def idxClaimSums {ρ σ α β : Type} [Inhabited ρ] [Inhabited σ] (F : ForeignIdx ρ σ α β)
    (imagesVal : List ρ) (labelsVal : List σ) (B : ℕ) (starts : List ℕ) : ℚ × ℚ :=
  starts.foldl
    (fun a st =>
      (a.1 + idxAccVal F imagesVal labelsVal B st *
        ((narrow0 imagesVal st (st + B)).length : ℚ),
        a.2 + ((narrow0 imagesVal st (st + B)).length : ℚ))) (0, 0)

/-! ## Helper lemmas -/

/-- The loop skeleton of the index path never hits its break while
`(batchIndex + remaining) * B ≤ samples`: it emits exactly the contiguous
starts `batchIndex * B, (batchIndex+1) * B, …`. -/
lemma idxRangesGo_eq_range (samples B : ℕ) (hB : 0 < B) :
    ∀ (n bi : ℕ), (bi + n) * B ≤ samples →
      idxRangesGo samples B n bi = (List.range n).map (fun i => (bi + i) * B) := by
  intro n
  induction n with
  | zero => intro bi _; rfl
  | succ n ih =>
    intro bi hle
    have hstart : bi * B + B ≤ samples := by
      have : (bi + 1) * B ≤ (bi + (n + 1)) * B := by
        apply Nat.mul_le_mul_right
        omega
      calc bi * B + B = (bi + 1) * B := by ring
        _ ≤ (bi + (n + 1)) * B := this
        _ ≤ samples := hle
    have hnobreak : ¬ (samples - bi * B < B) := by omega
    have hih := ih (bi + 1) (by
      have : (bi + 1 + n) * B = (bi + (n + 1)) * B := by ring
      omega)
    calc idxRangesGo samples B (n + 1) bi
        = bi * B :: idxRangesGo samples B n (bi + 1) := by
          simp only [idxRangesGo, hnobreak, if_false]
      _ = bi * B :: (List.range n).map (fun i => (bi + 1 + i) * B) := by rw [hih]
      _ = (List.range (n + 1)).map (fun i => (bi + i) * B) := by
          rw [List.range_succ_eq_map, List.map_cons, List.map_map]
          have hf : ((fun i => (bi + i) * B) ∘ (· + 1)) = (fun i => (bi + 1 + i) * B) := by
            funext i
            simp only [Function.comp]
            ring
          rw [hf]
          norm_num

/-! ## Claim theorems: initializers, combinators, batching -/

/-- C9: under the drop-partial policy of the index path, batching a
leading dimension of length `N` with batch size `B > 0` yields exactly
`N / B` full batches — the contiguous starts `0, B, 2B, …` — each slicing
exactly `B` rows, so the remaining `N % B` rows are in no batch. -/
theorem dropPartial_batch_starts (N B : ℕ) (hB : 0 < B) :
    idxBatchStarts N B = (List.range (N / B)).map (fun i => i * B) ∧
    (idxBatchStarts N B).length = N / B ∧
    (∀ {γ : Type} (l : List γ), l.length = N →
      ∀ st ∈ idxBatchStarts N B, (narrow0 l st (st + B)).length = B) := by
  have heq : idxBatchStarts N B = (List.range (N / B)).map (fun i => i * B) := by
    have h := idxRangesGo_eq_range N B hB (N / B) 0 (by
      simpa using Nat.div_mul_le_self N B)
    simpa [idxBatchStarts] using h
  refine ⟨heq, by rw [heq]; simp, ?_⟩
  intro γ l hl st hst
  rw [heq] at hst
  simp only [List.mem_map, List.mem_range] at hst
  obtain ⟨i, hi, rfl⟩ := hst
  have hfit : i * B + B ≤ N := by
    have : (i + 1) * B ≤ (N / B) * B := Nat.mul_le_mul_right B (by omega)
    have hd := Nat.div_mul_le_self N B
    calc i * B + B = (i + 1) * B := by ring
      _ ≤ (N / B) * B := this
      _ ≤ N := hd
  simp only [narrow0, List.length_take, List.length_drop, hl]
  omega

/-- Witness for C9 at the claim's concrete inputs: `N = 10, B = 3` gives
exactly the 3 full batches starting at `0, 3, 6` (dropping the last row),
and `N = 9, B = 3` the same 3 full batches with no drop. -/
theorem dropPartial_batch_starts_witness :
    idxBatchStarts 10 3 = [0, 3, 6] ∧ idxBatchStarts 9 3 = [0, 3, 6] := by
  have h10 := (dropPartial_batch_starts 10 3 (by decide)).1
  have h9 := (dropPartial_batch_starts 9 3 (by decide)).1
  exact ⟨by rw [h10]; decide, by rw [h9]; decide⟩

/-- C8: in every batch produced by the shuffled (index-select) path, data
row `k` and label row `k` both come from the same original sample index,
namely the entry `p[start + k]` of the single shared permutation. -/
theorem shuffled_row_correspondence {ρ σ : Type} [Inhabited ρ] [Inhabited σ]
    (xs : List ρ) (ys : List σ) (p : List ℕ) (start B k : ℕ)
    (hk : k < B) (hlen : start + B ≤ p.length) :
    ∃ j, p[start + k]? = some j ∧
      (idxBatchData xs p start B)[k]? = some (xs.getD j default) ∧
      (idxBatchData ys p start B)[k]? = some (ys.getD j default) := by
  have hidx : start + k < p.length := by omega
  refine ⟨p.get ⟨start + k, hidx⟩, ?_, ?_, ?_⟩
  · simp [List.getElem?_eq_getElem hidx]
  · simp only [idxBatchData, narrow0, indexSelect0, Nat.add_sub_cancel_left,
      List.getElem?_take, hk, if_true, List.getElem?_drop, List.getElem?_map,
      List.getElem?_eq_getElem hidx, Option.map_some]
    simp
  · simp only [idxBatchData, narrow0, indexSelect0, Nat.add_sub_cancel_left,
      List.getElem?_take, hk, if_true, List.getElem?_drop, List.getElem?_map,
      List.getElem?_eq_getElem hidx, Option.map_some]
    simp

/-- Witness for C8: data `[10, 20, 30]`, labels `[5, 6, 7]`, permutation
`[2, 0, 1]`, batch `[0, 2)`, row `k = 1`. -/
theorem shuffled_row_correspondence_witness :
    ∃ j, ([2, 0, 1] : List ℕ)[0 + 1]? = some j ∧
      (idxBatchData [10, 20, 30] [2, 0, 1] 0 2)[1]? = some (([10, 20, 30] : List ℕ).getD j default) ∧
      (idxBatchData [5, 6, 7] [2, 0, 1] 0 2)[1]? = some (([5, 6, 7] : List ℕ).getD j default) :=
  shuffled_row_correspondence [10, 20, 30] [5, 6, 7] [2, 0, 1] 0 2 1 (by decide) (by decide)

/-- C7 (counterexample): at rank 22 the source's `uint64` factorial
wraps: `factorial(21)` is computed as `21! mod 2^64 = 14197454024290336768`,
strictly below the true `21! = 51090942171709440000`, so the code's fill
bound `sqrt(1/fanIn)` strictly exceeds the claimed `sqrt(1/21!)` — and
with the raw sample stream constantly `0`, the produced element is
`-sqrt(1/fanIn)`, strictly below the claimed lower bound `-sqrt(1/21!)`:
the claimed interval does not contain every produced element. -/
theorem kaimingUniform_overflow_counterexample :
    (kaimingUniformInitTensor (List.replicate 22 1) (fun _ => 0)).headI ∈
        kaimingUniformInitTensor (List.replicate 22 1) (fun _ => 0) ∧
      (kaimingUniformInitTensor (List.replicate 22 1) (fun _ => 0)).headI <
        -Real.sqrt (1 / (Nat.factorial 21 : ℝ)) := by
  have hfan : goFactorial ((List.replicate 22 1).length - 1) =
      14197454024290336768 := by decide
  have hlist : kaimingUniformInitTensor (List.replicate 22 1) (fun _ => 0) =
      [-Real.sqrt (1 / (14197454024290336768 : ℝ))] := by
    simp only [kaimingUniformInitTensor, hfan, uniformFill, flattenDim]
    norm_num [List.prod_replicate, List.range_succ]
  have hf21n : Nat.factorial 21 = 51090942171709440000 := by decide
  have hf21 : (Nat.factorial 21 : ℝ) = 51090942171709440000 := by
    rw [hf21n]
    norm_num
  rw [hlist, hf21]
  refine ⟨by simp, ?_⟩
  simp only [List.headI]
  have h1 : (1 : ℝ) / 51090942171709440000 < 1 / 14197454024290336768 := by
    norm_num
  have h2 : Real.sqrt (1 / 51090942171709440000) <
      Real.sqrt (1 / 14197454024290336768) :=
    Real.sqrt_lt_sqrt (by positivity) h1
  linarith

/-- C7 (amended): for every shape of rank at least 1,
`KaimingUniform.InitTensor` fills the tensor with elements lying in
`[-bound, bound]` where `bound = sqrt(1 / fanIn)` and `fanIn` is
`factorial(rank - 1)` computed in the source's wrapping `uint64`
arithmetic (`factorial(0) = 1`); for rank 1 the bound is `1`, and for
ranks up to 21 (`rank - 1 ≤ 20`) the wrapped factorial coincides with the
mathematical factorial, so the originally claimed bound holds there. -/
theorem kaimingUniform_bound (dims : List ℕ) (u : ℕ → ℝ)
    (_hrank : 1 ≤ dims.length) (hu : ∀ i, 0 ≤ u i ∧ u i < 1) :
    (∀ x ∈ kaimingUniformInitTensor dims u,
      -Real.sqrt (1 / (goFactorial (dims.length - 1) : ℝ)) ≤ x ∧
        x ≤ Real.sqrt (1 / (goFactorial (dims.length - 1) : ℝ))) ∧
    (dims.length = 1 →
      Real.sqrt (1 / (goFactorial (dims.length - 1) : ℝ)) = 1) ∧
    (dims.length - 1 ≤ 20 →
      goFactorial (dims.length - 1) = Nat.factorial (dims.length - 1)) := by
  refine ⟨?_, ?_, ?_⟩
  · intro x hx
    set b := Real.sqrt (1 / (goFactorial (dims.length - 1) : ℝ)) with hb
    have hb0 : 0 ≤ b := Real.sqrt_nonneg _
    simp only [kaimingUniformInitTensor, uniformFill, List.mem_map,
      List.mem_range] at hx
    obtain ⟨i, _, rfl⟩ := hx
    have hui := hu i
    constructor
    · nlinarith [hui.1, hui.2]
    · nlinarith [hui.1, hui.2]
  · intro h1
    rw [h1]
    norm_num [goFactorial, Real.sqrt_one]
  · intro h20
    have hall : ∀ n, n ≤ 20 → goFactorial n = Nat.factorial n := by decide
    exact hall _ h20

/-- Witness for C7: shape `[2]` (rank 1, so `bound = 1`) with the constant
raw sample stream `1/2`, whose produced elements are all `0`; applying
`kaimingUniform_bound` there bounds the element `0` by
`sqrt(1/factorial(0)) = 1`. -/
theorem kaimingUniform_bound_witness :
    -Real.sqrt (1 / (goFactorial 0 : ℝ)) ≤ 0 ∧
      (0 : ℝ) ≤ Real.sqrt (1 / (goFactorial 0 : ℝ)) := by
  have h := (kaimingUniform_bound [2] (fun _ => (1 : ℝ) / 2) (by norm_num)
    (fun i => by norm_num)).1
  have hlist : kaimingUniformInitTensor [2] (fun _ => (1 : ℝ) / 2) = [0, 0] := by
    norm_num [kaimingUniformInitTensor, uniformFill, flattenDim, goFactorial,
      Real.sqrt_one, List.range_succ]
  have h0 : (0 : ℝ) ∈ kaimingUniformInitTensor [2] (fun _ => (1 : ℝ) / 2) := by
    rw [hlist]
    simp
  exact h 0 h0

/-- C4 (code evaluation at the failing input): with `mean = 0`,
`stdev = 1` and the standard-normal sample `z = 2`, both `InitTensor` and
`Set` of the Normal initializer produce the element `z * mean + stdev = 1`,
while the claimed formula `mean + stdev * z` gives `2`: the source scales
the sample by `mean` and offsets by `stdev`, the reverse of the claim. -/
theorem randnInit_swaps_mean_and_stdev :
    randnInitTensor 0 1 [1] (fun _ => 2) = [1] ∧
    randnSetValues 0 1 [1] (fun _ => 2) = [1] ∧
    normalSpecValues 0 1 [1] (fun _ => 2) = [2] ∧
    randnInitTensor 0 1 [1] (fun _ => 2) ≠ normalSpecValues 0 1 [1] (fun _ => 2) := by
  refine ⟨?_, ?_, ?_, ?_⟩ <;>
    norm_num [randnInitTensor, randnSetValues, normalSpecValues, flattenDim]

/-- C6 (counterexample): at the concrete input tensor with handle id 0 on
foreign resource 7, `ApplyOpt` with no module returns a handle on the
same foreign resource 7 — an alias of the input, not an independently
owned copy. -/
theorem applyOpt_default_is_alias :
    aliases (applyOpt [] { hid := 0, res := 7 } 1) { hid := 0, res := 7 } ∧
    (applyOpt [] { hid := 0, res := 7 } 1).res = 7 := ⟨rfl, rfl⟩

/-- C6 (amended): with a module present `ApplyOpt`/`ApplyOptT` return the
module's forward result; with no module present they return a shallow
clone — a fresh host handle aliasing the same foreign resource — rather
than a materializing copy. -/
theorem applyOpt_amended (ts : ATensor) (fresh : ℕ)
    (m : ATensor → ATensor) (mo : List (Unit → (ATensor → ATensor)))
    (mt : ATensor → Bool → ATensor) (mto : List (Unit → (ATensor → Bool → ATensor)))
    (train : Bool) :
    applyOpt ((fun _ => m) :: mo) ts fresh = m ts ∧
    applyOptT train ((fun _ => mt) :: mto) ts fresh = mt ts train ∧
    applyOpt [] ts fresh = { hid := fresh, res := ts.res } ∧
    aliases (applyOpt [] ts fresh) ts ∧
    applyOptT train [] ts fresh = { hid := fresh, res := ts.res } ∧
    aliases (applyOptT train [] ts fresh) ts :=
  ⟨rfl, rfl, rfl, rfl, rfl, rfl⟩

/-! ## Refinement lemmas: the state-threaded loops compute pure sums -/

/-- One Iter2-path iteration adds exactly the item's accuracy value
weighted by the item's own leading-dimension size, and that size. -/
lemma stepLogits_sums {α : Type} (F : Foreign α) (q : ℚ × ℚ) (s : RtState) (v : α × α) :
    stepLogits F (q, s) v =
      ((q.1 + logitsAccVal F v * (F.size v.1 : ℚ), q.2 + (F.size v.1 : ℚ)),
        (stepLogits F (q, s) v).2) := rfl

/-- The Iter2-path loop's running sums are the pure per-item fold,
independent of the runtime state. -/
lemma foldl_stepLogits_sums {α : Type} (F : Foreign α) (items : List (α × α)) :
    ∀ (q : ℚ × ℚ) (s : RtState),
      (items.foldl (stepLogits F) (q, s)).1 =
        items.foldl
          (fun a v => (a.1 + logitsAccVal F v * (F.size v.1 : ℚ), a.2 + (F.size v.1 : ℚ))) q := by
  induction items with
  | nil => intro q s; rfl
  | cons v items ih =>
    intro q s
    rw [List.foldl_cons, List.foldl_cons, stepLogits_sums]
    exact ih _ _

/-- One index-path iteration adds exactly the batch's accuracy value
weighted by the full leading dimension `N`, and that same `N`. -/
lemma idxStep_sums {ρ σ α β : Type} [Inhabited ρ] [Inhabited σ] (F : ForeignIdx ρ σ α β)
    (N : ℕ) (iv : List ρ) (lv : List σ) (B start : ℕ) (q : ℚ × ℚ) (s : RtState) :
    idxStep F N iv lv B start (q, s) =
      ((q.1 + idxAccVal F iv lv B start * (N : ℚ), q.2 + (N : ℚ)),
        (idxStep F N iv lv B start (q, s)).2) := rfl

/-- The index-path loop's running sums are the pure fold over the starts
the loop skeleton emits, independent of the runtime state. -/
lemma idxLoopGo_sums {ρ σ α β : Type} [Inhabited ρ] [Inhabited σ] (F : ForeignIdx ρ σ α β)
    (samples B N : ℕ) (iv : List ρ) (lv : List σ) :
    ∀ (n bi : ℕ) (q : ℚ × ℚ) (s : RtState),
      (idxLoopGo F samples B N iv lv n bi (q, s)).1 =
        (idxRangesGo samples B n bi).foldl
          (fun a st => (a.1 + idxAccVal F iv lv B st * (N : ℚ), a.2 + (N : ℚ))) q := by
  intro n
  induction n with
  | zero => intro bi q s; rfl
  | succ n ih =>
    intro bi q s
    by_cases hbr : samples - bi * B < B
    · simp only [idxLoopGo, idxRangesGo, hbr, if_true, List.foldl_nil]
    · simp only [idxLoopGo, idxRangesGo, hbr, if_false, List.foldl_cons]
      rw [idxStep_sums]
      exact ih _ _ _

/-- Sums of the full index path: the claimed permutation is drawn once,
and the loop folds the `N`-weighted step over `idxBatchStarts`. -/
lemma batchAccuracyForLogitsIdxSums_eq {ρ σ α β : Type} [Inhabited ρ] [Inhabited σ]
    (F : ForeignIdx ρ σ α β) (xs : HTensor (List ρ)) (ys : HTensor (List σ)) (B : ℕ)
    (s : RtState) :
    (batchAccuracyForLogitsIdxSums F xs ys B s).1 =
      idxSums F (indexSelect0 xs.val (F.randperm xs.val.length))
        (indexSelect0 ys.val (F.randperm xs.val.length)) xs.val.length B
        (idxBatchStarts xs.val.length B) := by
  simp only [batchAccuracyForLogitsIdxSums, idxSums, idxBatchStarts, dropH]
  rw [idxLoopGo_sums]

/-! ## Grad-mode lemmas -/

/-- The Iter2-path loop body never touches the grad-mode flag. -/
lemma stepLogits_gradMode {α : Type} (F : Foreign α) (p : (ℚ × ℚ) × RtState) (v : α × α) :
    (stepLogits F p v).2.gradMode = p.2.gradMode := rfl

/-- Folding the Iter2-path loop preserves the grad-mode flag. -/
lemma foldl_stepLogits_gradMode {α : Type} (F : Foreign α) (items : List (α × α)) :
    ∀ (p : (ℚ × ℚ) × RtState),
      (items.foldl (stepLogits F) p).2.gradMode = p.2.gradMode := by
  induction items with
  | nil => intro p; rfl
  | cons v items ih =>
    intro p
    rw [List.foldl_cons, ih, stepLogits_gradMode]

/-- The index-path loop body never touches the grad-mode flag. -/
lemma idxStep_gradMode {ρ σ α β : Type} [Inhabited ρ] [Inhabited σ] (F : ForeignIdx ρ σ α β)
    (N : ℕ) (iv : List ρ) (lv : List σ) (B start : ℕ) (p : (ℚ × ℚ) × RtState) :
    (idxStep F N iv lv B start p).2.gradMode = p.2.gradMode := rfl

/-- The index-path loop preserves the grad-mode flag. -/
lemma idxLoopGo_gradMode {ρ σ α β : Type} [Inhabited ρ] [Inhabited σ] (F : ForeignIdx ρ σ α β)
    (samples B N : ℕ) (iv : List ρ) (lv : List σ) :
    ∀ (n bi : ℕ) (p : (ℚ × ℚ) × RtState),
      (idxLoopGo F samples B N iv lv n bi p).2.gradMode = p.2.gradMode := by
  intro n
  induction n with
  | zero => intro bi p; rfl
  | succ n ih =>
    intro bi p
    by_cases hbr : samples - bi * B < B
    · simp only [idxLoopGo, hbr, if_true]
    · simp only [idxLoopGo, hbr, if_false]
      rw [ih, idxStep_gradMode]

/-! ## Live-handle lemmas -/

/-- One Iter2-path iteration releases every handle it creates: starting
from a state whose live handles are all below the fresh counter, the live
set after the loop body equals the live set before it, and the counter has
advanced past the six transient ids. -/
lemma stepLogits_live {α : Type} (F : Foreign α) (q : ℚ × ℚ) (s : RtState) (v : α × α)
    (hs : ∀ h ∈ s.live, h < s.next) :
    (stepLogits F (q, s) v).2.live = s.live ∧
    (stepLogits F (q, s) v).2.next = s.next + 6 := by
  constructor
  · simp only [stepLogits, iterNextItem, mustToDel, forwardTH, accuracyForLogitsH,
      allocH, dropH]
    ext a
    simp only [Finset.mem_erase, Finset.mem_insert]
    by_cases ha : a ∈ s.live
    · have h1 := hs a ha
      simp [ha]
      all_goals omega
    · simp [ha]
      all_goals omega
  · simp only [stepLogits, iterNextItem, mustToDel, forwardTH, accuracyForLogitsH,
      allocH, dropH]

/-- One index-path iteration releases every handle it creates, in the same
sense as `stepLogits_live`. -/
lemma idxStep_live {ρ σ α β : Type} [Inhabited ρ] [Inhabited σ] (F : ForeignIdx ρ σ α β)
    (N : ℕ) (iv : List ρ) (lv : List σ) (B start : ℕ) (q : ℚ × ℚ) (s : RtState)
    (hs : ∀ h ∈ s.live, h < s.next) :
    (idxStep F N iv lv B start (q, s)).2.live = s.live ∧
    (idxStep F N iv lv B start (q, s)).2.next = s.next + 6 := by
  constructor
  · simp only [idxStep, allocH, dropH]
    ext a
    simp only [Finset.mem_erase, Finset.mem_insert]
    by_cases ha : a ∈ s.live
    · have h1 := hs a ha
      simp [ha]
      all_goals omega
    · simp [ha]
      all_goals omega
  · simp only [idxStep, allocH, dropH]

/-! ## Concrete oracle instances used by witnesses and counterexamples -/

/-- A concrete oracle set over `Bool` tensor values. -/
def foreignA : Foreign Bool :=
  { size := fun _ => 1
    toDev := id
    fwdT := fun v _ => v
    accOf := fun a b => a && b
    values0 := fun b => if b then 1 else 0 }

/-- Same oracles as `foreignA` except the train-mode forward pass
differs; the eval-mode forward pass agrees. -/
def foreignB : Foreign Bool :=
  { foreignA with fwdT := fun v t => v && !t }

/-- A trivial concrete oracle set for the index path: identity device
moves, constant accuracy 1, identity permutation. -/
def foreignIdx0 : ForeignIdx Unit Unit Unit Unit :=
  { toDevD := id
    toDevL := id
    fwdT := fun _ _ => ()
    accOf := fun _ _ => ()
    values0 := fun _ => 1
    randperm := fun n => List.range n }

/-! ## Claim theorems: evaluators -/

/-- C1 (counterexample): over 4 samples with batch size 2 and an accuracy
oracle that is constantly 1, the index path's running sums are `(8, 8)` —
each of the 2 batches contributes the full leading dimension 4 — whereas
the claimed batch-own-size weighting would give `(4, 4)`. -/
theorem idx_weighting_counterexample :
    (batchAccuracyForLogitsIdxSums foreignIdx0 ⟨100, [(), (), (), ()]⟩
        ⟨101, [(), (), (), ()]⟩ 2 { live := ∅, next := 0, gradMode := true }).1 ≠
      idxClaimSums foreignIdx0
        (indexSelect0 [(), (), (), ()] (foreignIdx0.randperm 4))
        (indexSelect0 [(), (), (), ()] (foreignIdx0.randperm 4)) 2
        (idxBatchStarts 4 2) := by
  rw [batchAccuracyForLogitsIdxSums_eq]
  have hstarts : idxBatchStarts 4 2 = [0, 2] := by decide
  norm_num [hstarts, idxSums, idxClaimSums, idxAccVal, indexSelect0, narrow0,
    foreignIdx0, Prod.ext_iff]

/-- C1 (amended): the Iter2 path accumulates, per batch, the batch's
accuracy weighted by the batch's own leading-dimension size and that size,
returning `sumAccuracy / sampleCount`; the index path instead weights
every batch's accuracy by the full leading-dimension size of `xs` and adds
that same total to `sampleCount` per batch, also returning
`sumAccuracy / sampleCount`. -/
theorem weighted_accuracy_accumulation {α ρ σ β γ : Type} [Inhabited ρ] [Inhabited σ]
    (F : Foreign α) (items : List (α × α)) (s : RtState)
    (G : ForeignIdx ρ σ β γ) (xs : HTensor (List ρ)) (ys : HTensor (List σ)) (B : ℕ)
    (s2 : RtState) :
    (batchAccuracyForLogitsRun F items s).1 =
      fdiv (logitsSums F items).1 (logitsSums F items).2 ∧
    (batchAccuracyForLogitsIdxSums G xs ys B s2).1 =
      idxSums G (indexSelect0 xs.val (G.randperm xs.val.length))
        (indexSelect0 ys.val (G.randperm xs.val.length)) xs.val.length B
        (idxBatchStarts xs.val.length B) ∧
    (batchAccuracyForLogitsIdxRun G xs ys B s2).1 =
      fdiv (batchAccuracyForLogitsIdxSums G xs ys B s2).1.1
        (batchAccuracyForLogitsIdxSums G xs ys B s2).1.2 := by
  refine ⟨?_, batchAccuracyForLogitsIdxSums_eq G xs ys B s2, rfl⟩
  simp only [batchAccuracyForLogitsRun, logitsSums]
  rw [foldl_stepLogits_sums]

/-- C2: in both evaluation paths, one loop iteration releases every
transient handle it creates (the batch item, the device-moved inputs, the
logits, the accuracy scalar) before the next batch is pulled: starting
from any state whose live handles all lie below the fresh counter, the
live-handle set after the body equals the one before it, and the
below-counter invariant is re-established, so no intermediate handle leaks
across iterations. -/
theorem transient_release_per_iteration {α ρ σ β γ : Type} [Inhabited ρ] [Inhabited σ]
    (F : Foreign α) (q : ℚ × ℚ) (v : α × α) (s : RtState)
    (G : ForeignIdx ρ σ β γ) (N B start : ℕ) (iv : List ρ) (lv : List σ)
    (q2 : ℚ × ℚ) (s2 : RtState)
    (hs : ∀ h ∈ s.live, h < s.next) (hs2 : ∀ h ∈ s2.live, h < s2.next) :
    ((stepLogits F (q, s) v).2.live = s.live ∧
      ∀ h ∈ (stepLogits F (q, s) v).2.live, h < (stepLogits F (q, s) v).2.next) ∧
    ((idxStep G N iv lv B start (q2, s2)).2.live = s2.live ∧
      ∀ h ∈ (idxStep G N iv lv B start (q2, s2)).2.live,
        h < (idxStep G N iv lv B start (q2, s2)).2.next) := by
  obtain ⟨hl1, hn1⟩ := stepLogits_live F q s v hs
  obtain ⟨hl2, hn2⟩ := idxStep_live G N iv lv B start q2 s2 hs2
  refine ⟨⟨hl1, ?_⟩, ⟨hl2, ?_⟩⟩
  · intro h hh
    rw [hl1] at hh
    have := hs h hh
    omega
  · intro h hh
    rw [hl2] at hh
    have := hs2 h hh
    omega

/-- Witness for C2 at a concrete empty initial state for both loop
bodies. -/
theorem transient_release_per_iteration_witness :
    ((stepLogits foreignA ((0, 0), { live := ∅, next := 0, gradMode := true })
        (true, false)).2.live = ({ live := ∅, next := 0, gradMode := true } : RtState).live ∧
      ∀ h ∈ (stepLogits foreignA ((0, 0), { live := ∅, next := 0, gradMode := true })
          (true, false)).2.live,
        h < (stepLogits foreignA ((0, 0), { live := ∅, next := 0, gradMode := true })
          (true, false)).2.next) ∧
    ((idxStep foreignIdx0 1 [()] [()] 1 0
        ((0, 0), { live := ∅, next := 0, gradMode := true })).2.live =
        ({ live := ∅, next := 0, gradMode := true } : RtState).live ∧
      ∀ h ∈ (idxStep foreignIdx0 1 [()] [()] 1 0
          ((0, 0), { live := ∅, next := 0, gradMode := true })).2.live,
        h < (idxStep foreignIdx0 1 [()] [()] 1 0
          ((0, 0), { live := ∅, next := 0, gradMode := true })).2.next) :=
  transient_release_per_iteration foreignA (0, 0) (true, false)
    { live := ∅, next := 0, gradMode := true } foreignIdx0 1 1 0 [()] [()] (0, 0)
    { live := ∅, next := 0, gradMode := true } (by simp) (by simp)

/-- C3 (counterexample): starting with gradient tracking enabled, after
`BatchAccuracyForLogitsIdx` returns the process-wide mode is disabled, not
restored: the guard opened by `_ = NewNoGradGuard()` is never dropped. -/
theorem gradMode_idx_not_restored :
    (batchAccuracyForLogitsIdxRun foreignIdx0 ⟨100, [()]⟩ ⟨101, [()]⟩ 1
        { live := ∅, next := 0, gradMode := true }).2.gradMode ≠
      ({ live := ∅, next := 0, gradMode := true } : RtState).gradMode := by
  have h : (batchAccuracyForLogitsIdxRun foreignIdx0 ⟨100, [()]⟩ ⟨101, [()]⟩ 1
      { live := ∅, next := 0, gradMode := true }).2.gradMode = false := by
    simp only [batchAccuracyForLogitsIdxRun, batchAccuracyForLogitsIdxSums, dropH]
    rw [idxLoopGo_gradMode]
    rfl
  rw [h]
  decide

/-- C3 (amended): `BatchAccuracyForLogits` opens the no-grad guard and
restores the prior gradient-tracking mode exactly once on return, so the
mode after the call equals the mode before it; `BatchAccuracyForLogitsIdx`
opens the guard but never drops it, so after it returns the mode is
`false` (disabled) regardless of the prior mode. -/
theorem gradMode_restoration {α ρ σ β γ : Type} [Inhabited ρ] [Inhabited σ]
    (F : Foreign α) (items : List (α × α)) (s : RtState)
    (G : ForeignIdx ρ σ β γ) (xs : HTensor (List ρ)) (ys : HTensor (List σ)) (B : ℕ)
    (s2 : RtState) :
    (batchAccuracyForLogitsRun F items s).2.gradMode = s.gradMode ∧
    (batchAccuracyForLogitsIdxRun G xs ys B s2).2.gradMode = false := by
  constructor
  · rfl
  · simp only [batchAccuracyForLogitsIdxRun, batchAccuracyForLogitsIdxSums, dropH]
    rw [idxLoopGo_gradMode]
    rfl

/-- C5 (counterexample): over an iterator producing zero batches, the
Iter2-path evaluator silently returns the computed value `0.0 / 0.0`,
i.e. NaN — it has no error channel at all (its Go result type is a bare
`float64`), so no `EmptyInput`/`DivideByZero` error reaches the caller. -/
theorem empty_iterator_silent_nan :
    (batchAccuracyForLogitsRun foreignA []
        { live := ∅, next := 0, gradMode := true }).1 = EvalResult.nan := by
  simp [batchAccuracyForLogitsRun, fdiv]

/-- C5 (amended): with zero produced batches (`sampleCount == 0`), both
evaluators return the silently computed float value `0.0 / 0.0 = NaN`
rather than reporting an error. -/
theorem empty_iterator_returns_nan {α ρ σ β γ : Type} [Inhabited ρ] [Inhabited σ]
    (F : Foreign α) (s : RtState)
    (G : ForeignIdx ρ σ β γ) (xs : HTensor (List ρ)) (ys : HTensor (List σ)) (B : ℕ)
    (s2 : RtState) (hB : xs.val.length < B) :
    (batchAccuracyForLogitsRun F [] s).1 = EvalResult.nan ∧
    (batchAccuracyForLogitsIdxRun G xs ys B s2).1 = EvalResult.nan := by
  constructor
  · simp [batchAccuracyForLogitsRun, fdiv]
  · simp only [batchAccuracyForLogitsIdxRun, batchAccuracyForLogitsIdxSums]
    rw [Nat.div_eq_of_lt hB]
    simp [idxLoopGo, fdiv]

/-- Witness for C5: a 0-row dataset with batch size 1 produces zero
batches, and both evaluators return NaN. -/
theorem empty_iterator_returns_nan_witness :
    (batchAccuracyForLogitsRun foreignA []
        { live := ∅, next := 0, gradMode := true }).1 = EvalResult.nan ∧
    (batchAccuracyForLogitsIdxRun foreignIdx0 ⟨100, []⟩ ⟨101, []⟩ 1
        { live := ∅, next := 0, gradMode := true }).1 = EvalResult.nan :=
  empty_iterator_returns_nan foreignA { live := ∅, next := 0, gradMode := true }
    foreignIdx0 ⟨100, []⟩ ⟨101, []⟩ 1 { live := ∅, next := 0, gradMode := true }
    (by decide)

/-- C10: `BatchAccuracyForLogits` invokes the module's mode-aware forward
pass with `trainingMode = false` only: its result is unchanged under any
replacement of the module's train-mode behavior, as long as the eval-mode
behavior (and the other oracles) agree. -/
theorem forwardT_eval_mode {α : Type} (F G : Foreign α) (items : List (α × α)) (s : RtState)
    (hsize : F.size = G.size) (hdev : F.toDev = G.toDev)
    (hfwd : ∀ x, F.fwdT x false = G.fwdT x false)
    (hacc : F.accOf = G.accOf) (hval : F.values0 = G.values0) :
    batchAccuracyForLogitsRun F items s = batchAccuracyForLogitsRun G items s := by
  have hstep : stepLogits F = stepLogits G := by
    funext p v
    simp only [stepLogits, iterNextItem, mustToDel, forwardTH, accuracyForLogitsH,
      hsize, hdev, hacc, hval, hfwd]
  simp only [batchAccuracyForLogitsRun, hstep]

/-- Witness for C10: `foreignA` and `foreignB` differ in train-mode
forward behavior but agree in eval mode, and the evaluator's result is the
same for both. -/
theorem forwardT_eval_mode_witness :
    batchAccuracyForLogitsRun foreignA [(true, false)]
        { live := ∅, next := 0, gradMode := true } =
      batchAccuracyForLogitsRun foreignB [(true, false)]
        { live := ∅, next := 0, gradMode := true } :=
  forwardT_eval_mode foreignA foreignB [(true, false)]
    { live := ∅, next := 0, gradMode := true } rfl rfl
    (fun x => by cases x <;> rfl) rfl rfl

end GotchSpec
